import Mathlib

/-!
Shallow embedding of the claim-relevant parts of the `hermes` IBC relayer
(crates/relayer websocket event source, relayer-framework message sender,
relayer-types `UpgradeFields` codec, modules `AnyHeader` codec, and the
relayer-cosmos `WriteAcknowledgementEvent` conversion), together with
theorems settling the frozen claims about them.

Components of the repository that the claims depend on but whose sources are
not available (`util/stream.rs`, `util/retry.rs`, ICS-24 identifiers, the
channel `Ordering` and `Version` types, the Tendermint header codec, the
event-type parser and packet extraction) are modelled from the specification;
each such definition carries a doc comment starting with
`Modelled from the spec:`.
-/

/-! ## Event source data model (crates/relayer/src/event/source/websocket.rs) -/

/-- Chain identifier, a stable string (ics24_host `ChainId`). -/
structure ChainId where
  id : String
deriving DecidableEq, Repr

/-- IBC event payloads, abstracted to the distinction the event source code
inspects: whether the event is a `NewBlock` event or any other event. -/
inductive IbcEvent where
  | newBlock (data : Nat)
  | other (tag : String) (data : Nat)
deriving DecidableEq, Repr

/-- Whether an event is a `NewBlock` event. -/
def IbcEvent.isNewBlock : IbcEvent → Bool
  | .newBlock _ => true
  | .other _ _ => false

/-- An IBC event paired with the height it occurred at
(`crate::event::IbcEventWithHeight`). -/
structure IbcEventWithHeight where
  event : IbcEvent
  height : Nat
deriving DecidableEq, Repr

/-- Opaque tracking identifier; the claims do not depend on its freshness,
so it is modelled as the batch's position in the stream. -/
abbrev TrackingId := Nat

/-- A batch of events received from a WebSocket endpoint from a chain at a
specific height (`EventBatch` in `crates/relayer/src/event/source/mod.rs`). -/
structure EventBatch where
  chain_id : ChainId
  height : Nat
  tracking_id : TrackingId
  events : List IbcEventWithHeight
deriving DecidableEq, Repr

/-- The comparator passed to `events.sort_by` in `sort_events`
(websocket.rs lines 438-443): a `NewBlock` event compares `Less` against
anything, every other pair compares `Equal`. -/
def eventOrder (a b : IbcEventWithHeight) : Ordering :=
  match a.event, b.event with
  | .newBlock _, _ => .lt
  | _, _ => .eq

/-- The strict comparison `is_less` derived from a comparator, as Rust's
slice sort uses it: `is_less a b` holds when the comparator returns `Less`. -/
def isLess (cmp : α → α → Ordering) (a b : α) : Bool :=
  cmp a b == Ordering.lt

/-- Rust core::slice `insert_head`: insert `x` in front of `l`, sliding `x`
rightward past the maximal prefix of elements `e` with `is_less e x`. -/
def insertHead (cmp : α → α → Ordering) (x : α) : List α → List α
  | [] => [x]
  | e :: rest =>
    if isLess cmp e x then e :: insertHead cmp x rest else x :: e :: rest

/-- Rust core::slice stable sort, insertion path: repeatedly `insert_head`
each element into the already-sorted suffix (the path the standard library
takes for the slice lengths at issue; for the comparator of `sort_events`,
whose `is_less` depends only on its first argument, the merge path produces
the same NewBlock-first partition). -/
def rustStableSort (cmp : α → α → Ordering) : List α → List α
  | [] => []
  | x :: xs => insertHead cmp x (rustStableSort cmp xs)

/-- `sort_events` (websocket.rs lines 438-443): sort the given events by
putting the NewBlock event first, leaving the other events as is. -/
def sort_events (events : List IbcEventWithHeight) : List IbcEventWithHeight :=
  rustStableSort eventOrder events

/-- Modelled from the spec: the `group_while` operator of
`crates/relayer/src/util/stream.rs` (not under src/): "emits a group each
time the `height` changes. Within a group, relative RPC order is
preserved." Adjacent elements satisfying `p` stay in the same group. -/
def groupWhileStep (p : α → α → Bool) (x : α) :
    List (List α) → List (List α)
  | (y :: g) :: gs =>
    if p x y then (x :: y :: g) :: gs else [x] :: (y :: g) :: gs
  | gs => [x] :: gs

/-- Modelled from the spec: grouping of the whole stream; see
`groupWhileStep`. -/
def groupWhile (p : α → α → Bool) : List α → List (List α)
  | [] => []
  | x :: xs => groupWhileStep p x (groupWhile p xs)

/-- Build one `EventBatch` from one non-empty group, mirroring the closure in
`stream_batches` (websocket.rs lines 417-433): the batch height is the height
of the first event of the group, read before `sort_events` reorders the
group. The `none` branch mirrors the `expect` on an empty group, which
`group_while` never produces. -/
def batchOfGroup (chain_id : ChainId) (tracking : TrackingId)
    (g : List IbcEventWithHeight) : Option EventBatch :=
  match g with
  | [] => none
  | e0 :: _ =>
    some { chain_id := chain_id
           height := e0.height
           tracking_id := tracking
           events := sort_events g }

/-- Turn the list of height-groups into batches, numbering tracking ids. -/
def batchesOfGroups (chain_id : ChainId) (i : Nat) :
    List (List IbcEventWithHeight) → List EventBatch
  | [] => []
  | g :: gs =>
    match batchOfGroup chain_id i g with
    | some b => b :: batchesOfGroups chain_id (i + 1) gs
    | none => batchesOfGroups chain_id (i + 1) gs

/-- `stream_batches` (websocket.rs lines 398-434) on the decoded event
stream: group the events by height with `group_while`, then convert each
group to a batch. Decode failures and stream errors produce no batch, so the
input is the stream of successfully decoded `IbcEventWithHeight` values. -/
def stream_batches (chain_id : ChainId)
    (events : List IbcEventWithHeight) : List EventBatch :=
  batchesOfGroups chain_id 0
    (groupWhile (fun a b => a.height == b.height) events)

/-! ## Reconnect retry strategy (websocket.rs lines 37-50) -/

/-- The `retry` crate's `Fibonacci::from(1s)` delay sequence, in seconds:
yields `curr` and steps `(curr, next) := (next, curr + next)` starting from
`(1, 1)`. -/
def fibDelay : Nat → Nat
  | 0 => 1
  | 1 => 1
  | n + 2 => fibDelay n + fibDelay (n + 1)

/-- Modelled from the spec: `clamp_total` of `crates/relayer/src/util/retry.rs`
(not under src/): "Fibonacci backoff starting at 1 s, capped per-attempt at
60 s, total cap 10 min"; each delay is clamped to `maxDelay` and the sequence
stops before the running total would exceed `cap`. The fuel argument bounds
the recursion; since every delay is at least 1, fuel `cap + 1` is enough to
reach the point where the total cap cuts the sequence off. -/
def clampTotalGo (d : Nat → Nat) (maxDelay cap : Nat) :
    Nat → Nat → Nat → List Nat
  | 0, _, _ => []
  | fuel + 1, i, acc =>
    let x := min (d i) maxDelay
    if acc + x ≤ cap then x :: clampTotalGo d maxDelay cap fuel (i + 1) (acc + x)
    else []

/-- `retry_strategy::default` (websocket.rs lines 47-49):
`clamp_total(Fibonacci::from(1s), 60s, 10min)`, in seconds. -/
def retryStrategyDefault : List Nat :=
  clampTotalGo fibDelay 60 600 601 0 0

/-! ## Event source run loop (websocket.rs lines 284-386) -/

/-- Error kinds of `crate::event::error::ErrorDetail` that reach the run
loop. -/
inductive ErrorDetail where
  | webSocketDriver (msg : String)
  | clientCreationFailed (chain : ChainId) (url : String)
  | clientSubscriptionFailed (msg : String)
  | clientTerminationFailed (msg : String)
  | subscriptionCancelled (reason : String)
  | collectEventsFailed (reason : String)
deriving DecidableEq, Repr

/-- Whether the error detail is `SubscriptionCancelled`, the condition the
run loop tests with `if let` (websocket.rs line 333). -/
def ErrorDetail.isSubscriptionCancelled : ErrorDetail → Bool
  | .subscriptionCancelled _ => true
  | _ => false

instance [DecidableEq ε] [DecidableEq α] : DecidableEq (Except ε α) := fun x y =>
  match x, y with
  | .ok a, .ok b =>
    if h : a = b then isTrue (by rw [h])
    else isFalse (fun hc => h (Except.ok.inj hc))
  | .error a, .error b =>
    if h : a = b then isTrue (by rw [h])
    else isFalse (fun hc => h (Except.error.inj hc))
  | .ok _, .error _ => isFalse (fun hc => Except.noConfusion hc)
  | .error _, .ok _ => isFalse (fun hc => Except.noConfusion hc)

/-- `Next` (websocket.rs lines 456-459): whether `run` restarts the loop. -/
inductive Next where
  | abort
  | continue_loop
deriving DecidableEq, Repr

/-- Observable outcome of one pass of the `match result` statement in
`run_loop` (websocket.rs lines 330-363): what is broadcast on the event bus,
whether `reconnect` is entered, and whether the loop body returns
(`some next`) or falls through to the next iteration (`none`). -/
structure RunLoopOutcome where
  broadcasts : List (Except ErrorDetail EventBatch)
  reconnected : Bool
  next : Option Next
deriving DecidableEq, Repr

/-- The `match result` statement of `run_loop` (websocket.rs lines 330-363):
a successful batch is broadcast and the loop continues; an error whose detail
is `SubscriptionCancelled` is broadcast via `propagate_error` (line 374-376)
and the loop reconnects and returns `Continue`; any other error reconnects
silently and returns `Continue`. -/
def handleBatchResult (result : Except ErrorDetail EventBatch) : RunLoopOutcome :=
  match result with
  | .ok batch =>
    { broadcasts := [Except.ok batch], reconnected := false, next := none }
  | .error e =>
    if e.isSubscriptionCancelled then
      { broadcasts := [Except.error e]
        reconnected := true
        next := some Next.continue_loop }
    else
      { broadcasts := []
        reconnected := true
        next := some Next.continue_loop }

/-! ## IBC message sender
(crates/relayer-framework/src/base/relay/traits/ibc_message_sender.rs) -/

/-- Context errors of the message sender: the injected
`MismatchIbcEventsCount` error plus opaque errors of the underlying chain. -/
inductive SenderError where
  | mismatchIbcEventsCount (expected actual : Nat)
  | chainError (tag : Nat)
deriving DecidableEq, Repr

/-- A message-sender context: the underlying `IbcMessageSender::send_messages`
of the target chain, returning one event slice per input message on
success. -/
structure MessageSenderContext (Message Event : Type) where
  send_messages : List Message → Except SenderError (List (List Event))

/-- `IbcMessageSenderExt::send_messages_fixed` (ibc_message_sender.rs lines
74-88): forward to `send_messages`; on success, converting the returned
`Vec` into a `[Vec<Event>; COUNT]` array fails exactly when its length is
not `COUNT` (the length of the input array), in which case
`mismatch_ibc_events_count_error(COUNT, actual)` is returned. -/
def send_messages_fixed (ctx : MessageSenderContext M E)
    (messages : List M) : Except SenderError (List (List E)) :=
  match ctx.send_messages messages with
  | .error e => .error e
  | .ok events =>
    if events.length = messages.length then .ok events
    else .error (.mismatchIbcEventsCount messages.length events.length)

/-- `IbcMessageSenderExt::send_message` (ibc_message_sender.rs lines 90-99):
send the single message and flatten all returned event slices into one
sequence. -/
def send_message (ctx : MessageSenderContext M E)
    (message : M) : Except SenderError (List E) :=
  match ctx.send_messages [message] with
  | .error e => .error e
  | .ok events => .ok events.flatten

/-! ## UpgradeFields codec
(crates/relayer-types/src/core/ics04_channel/upgrade_fields.rs) -/

/-- Modelled from the spec: errors produced while parsing an ICS-24
identifier (`ics24_host::error` is not under src/). -/
inductive IdentifierError where
  | invalidIdentifier (id : String)
deriving DecidableEq, Repr

/-- Modelled from the spec: the ICS-24 identifier character set used by the
default identifier validator (alphanumerics and `.`, `_`, `+`, `-`, `#`,
`[`, `]`, `<`, `>`). -/
def isValidIdentifierChar (c : Char) : Bool :=
  c.isAlphanum || c = '.' || c = '_' || c = '+' || c = '-' ||
    c = '#' || c = '[' || c = ']' || c = '<' || c = '>'

/-- Modelled from the spec: validity of a connection identifier
(`validate_connection_identifier`, not under src/): length between 10 and
64, all characters from the ICS-24 identifier character set. -/
def isValidConnectionId (s : String) : Bool :=
  10 ≤ s.length && s.length ≤ 64 && s.toList.all isValidIdentifierChar

/-- Modelled from the spec: `ConnectionId` (ics24_host, not under src/), a
validated identifier string. -/
def ConnectionId := { s : String // isValidConnectionId s = true }

instance : DecidableEq ConnectionId :=
  Subtype.instDecidableEq

/-- Modelled from the spec: `ConnectionId::from_str` (not under src/):
parse succeeds exactly on valid identifier strings. -/
def ConnectionId.fromStr (s : String) : Except IdentifierError ConnectionId :=
  if h : isValidConnectionId s = true then .ok ⟨s, h⟩
  else .error (.invalidIdentifier s)

/-- Modelled from the spec: `ConnectionId`'s `Display`, the identifier
string itself. -/
def ConnectionId.toStr (c : ConnectionId) : String := c.val

/-- Modelled from the spec: the channel `Version` type
(ics04_channel/version.rs, not under src/), a plain string wrapper whose
`From<String>` and `Display` are mutually inverse. -/
structure Version where
  version : String
deriving DecidableEq, Repr

/-- Modelled from the spec: `Version::from(String)`. -/
def Version.fromString (s : String) : Version := ⟨s⟩

/-- Modelled from the spec: `Version`'s `Display`. -/
def Version.toStr (v : Version) : String := v.version

/-- Modelled from the spec: channel ordering
(ics04_channel::channel::Ordering, not under src/), the three protobuf
enum values. -/
inductive ChannelOrdering where
  | uninitialized
  | unordered
  | ordered
deriving DecidableEq, Repr

/-- Channel errors relevant to the `UpgradeFields` decoder. -/
inductive ChannelError where
  | unknownOrderType (ordering : Int)
  | parseConnectionHopsVector (failures : List (String × IdentifierError))
deriving DecidableEq, Repr

/-- Modelled from the spec: `Ordering as i32`, the protobuf enum value. -/
def ChannelOrdering.toI32 : ChannelOrdering → Int
  | .uninitialized => 0
  | .unordered => 1
  | .ordered => 2

/-- Modelled from the spec: `Ordering::from_i32` (not under src/): the
inverse of the enum values, failing on any other integer. -/
def ChannelOrdering.fromI32 (n : Int) : Except ChannelError ChannelOrdering :=
  if n = 0 then .ok .uninitialized
  else if n = 1 then .ok .unordered
  else if n = 2 then .ok .ordered
  else .error (.unknownOrderType n)

/-- The raw protobuf form `RawUpgradeFields`
(ibc_proto::ibc::core::channel::v1::UpgradeFields). -/
structure RawUpgradeFields where
  ordering : Int
  connection_hops : List String
  version : String
deriving DecidableEq, Repr

/-- `UpgradeFields` (upgrade_fields.rs lines 14-19). -/
structure UpgradeFields where
  ordering : ChannelOrdering
  connection_hops : List ConnectionId
  version : Version
deriving DecidableEq

/-- itertools `partition_map` over the raw connection hops, as used in the
decoder (upgrade_fields.rs lines 39-45): successes to the left, failing
entries (with their errors) to the right, relative order preserved on both
sides. -/
def partitionMapHops (hops : List String) :
    List ConnectionId × List (String × IdentifierError) :=
  match hops with
  | [] => ([], [])
  | id :: rest =>
    let acc := partitionMapHops rest
    match ConnectionId.fromStr id with
    | .ok cid => (cid :: acc.1, acc.2)
    | .error e => (acc.1, (id, e) :: acc.2)

/-- `TryFrom<RawUpgradeFields> for UpgradeFields` (upgrade_fields.rs lines
33-55): parse the ordering first, then partition the connection hops into
successes and failures; any failure aborts with
`parse_connection_hops_vector` carrying all failing entries. -/
def UpgradeFields.tryFromRaw (value : RawUpgradeFields) :
    Except ChannelError UpgradeFields :=
  match ChannelOrdering.fromI32 value.ordering with
  | .error e => .error e
  | .ok ordering =>
    let pm := partitionMapHops value.connection_hops
    if pm.2.isEmpty then
      .ok { ordering := ordering
            connection_hops := pm.1
            version := Version.fromString value.version }
    else .error (.parseConnectionHopsVector pm.2)

/-- `From<UpgradeFields> for RawUpgradeFields` (upgrade_fields.rs lines
57-70): stringify the ordering, hops and version. -/
def UpgradeFields.toRaw (value : UpgradeFields) : RawUpgradeFields :=
  { ordering := value.ordering.toI32
    connection_hops := value.connection_hops.map ConnectionId.toStr
    version := value.version.toStr }

/-- The failing connection-hop entries of a raw hops list, each with its
parse error, in order: the right side of the decoder's `partition_map`. -/
def failuresOf (hops : List String) : List (String × IdentifierError) :=
  hops.filterMap fun id =>
    match ConnectionId.fromStr id with
    | .ok _ => none
    | .error e => some (id, e)

/-- Whether a decode result is an error that reports the given
connection-hops entry among its failing entries. -/
def reportsBadEntry (r : Except ChannelError UpgradeFields)
    (entry : String) : Bool :=
  match r with
  | .error (.parseConnectionHopsVector failures) =>
    failures.any (fun f => f.1 == entry)
  | _ => false

/-! ## AnyHeader codec (modules/src/core/ics02_client/header.rs) -/

/-- Modelled from the spec: the Tendermint light-client header
(clients/ics07_tendermint/header.rs, not under src/), reduced to the data
the claims range over. -/
structure TendermintHeader where
  height : Nat
  timestampNanos : Nat
deriving DecidableEq, Repr

/-- A protobuf `Any` value (google.protobuf.Any), bytes as a list of
naturals. -/
structure ProtoAny where
  type_url : String
  value : List Nat
deriving DecidableEq, Repr

/-- `TENDERMINT_HEADER_TYPE_URL` (header.rs line 18). -/
def TENDERMINT_HEADER_TYPE_URL : String := "/ibc.lightclients.tendermint.v1.Header"

/-- ics02_client errors relevant to the `AnyHeader` decoder. -/
inductive ClientError where
  | unknownHeaderType (url : String)
  | invalidRawHeader
deriving DecidableEq, Repr

/-- Modelled from the spec: `encode_vec` for the Tendermint header (the
protobuf codec is not under src/); modelled as a faithful injective
encoding. -/
def TendermintHeader.encode_vec (h : TendermintHeader) : List Nat :=
  [h.height, h.timestampNanos]

/-- Modelled from the spec: `decode_header` (clients/ics07_tendermint, not
under src/), the inverse of `encode_vec`, failing on malformed bytes. -/
def decode_header (bytes : List Nat) : Except ClientError TendermintHeader :=
  match bytes with
  | [ht, ts] => .ok { height := ht, timestampNanos := ts }
  | _ => .error .invalidRawHeader

/-- `AnyHeader` (header.rs lines 43-48) in the non-mocks build: only the
Tendermint variant is compiled in. -/
inductive AnyHeader where
  | tendermint (header : TendermintHeader)
deriving DecidableEq, Repr

/-- `From<AnyHeader> for ProtoAny` (header.rs lines 109-127): tag the
encoded header with its registered type URL. -/
def AnyHeader.toProtoAny : AnyHeader → ProtoAny
  | .tendermint h =>
    { type_url := TENDERMINT_HEADER_TYPE_URL, value := h.encode_vec }

/-- `TryFrom<ProtoAny> for AnyHeader` (header.rs lines 88-107): dispatch on
the type URL; an unregistered URL fails with `unknown_header_type` carrying
that URL. -/
def AnyHeader.tryFromProtoAny (raw : ProtoAny) : Except ClientError AnyHeader :=
  if raw.type_url = TENDERMINT_HEADER_TYPE_URL then
    match decode_header raw.value with
    | .ok v => .ok (.tendermint v)
    | .error e => .error e
  else .error (.unknownHeaderType raw.type_url)

/-! ## WriteAcknowledgementEvent conversion
(relayer-cosmos/src/cosmos/context/chain.rs) -/

/-- IBC event types distinguished by `IbcEventType` parsing. -/
inductive IbcEventType where
  | sendPacket
  | writeAck
  | ackPacket
  | timeoutPacket
deriving DecidableEq, Repr

/-- Modelled from the spec: errors of the event-type parser
(`events.rs`, not under src/). -/
inductive EventTypeError where
  | incorrectEventType (found : String)
deriving DecidableEq, Repr

/-- Modelled from the spec: `IbcEventType::from_str` (events.rs, not under
src/): the write-acknowledgement event type parses from the string
`"write_acknowledgement"`, other known tags parse to their types, anything
else fails. -/
def parseIbcEventType (s : String) : Except EventTypeError IbcEventType :=
  if s = "send_packet" then .ok .sendPacket
  else if s = "write_acknowledgement" then .ok .writeAck
  else if s = "acknowledge_packet" then .ok .ackPacket
  else if s = "timeout_packet" then .ok .timeoutPacket
  else .error (.incorrectEventType s)

/-- An ABCI event: a type string and key-value attributes. -/
structure AbciEvent where
  type_str : String
  attributes : List (String × String)
deriving DecidableEq, Repr

/-- An IBC packet, reduced to the fields the write-ack extraction fills. -/
structure Packet where
  sequence : Nat
  source_port : String
  source_channel : String
  destination_port : String
  destination_channel : String
deriving DecidableEq, Repr

/-- Errors of the packet/ack extraction. -/
inductive ExtractError where
  | missingAttribute
  | invalidPacketSequence
deriving DecidableEq, Repr

/-- Look up an attribute value by key in an ABCI event. -/
def lookupAttr (e : AbciEvent) (key : String) : Option String :=
  (e.attributes.find? (fun a => a.1 == key)).map (fun a => a.2)

/-- Parse a non-empty all-digit character list as a natural number. -/
def digitsToNat : List Char → Nat → Option Nat
  | [], acc => some acc
  | c :: cs, acc =>
    if c.isDigit then digitsToNat cs (acc * 10 + (c.toNat - 48)) else none

/-- Modelled from the spec: decimal parsing of the packet sequence
attribute. -/
def parseSequence (s : String) : Option Nat :=
  match s.toList with
  | [] => none
  | cs => digitsToNat cs 0

/-- Modelled from the spec: `extract_packet_and_write_ack_from_tx`
(crates/relayer/src/event.rs, not under src/): read the packet fields and
the acknowledgement payload from the event's attributes, failing when an
attribute is missing or the sequence does not parse. -/
def extract_packet_and_write_ack_from_tx (e : AbciEvent) :
    Except ExtractError (Packet × String) :=
  match lookupAttr e "packet_sequence", lookupAttr e "packet_src_port",
      lookupAttr e "packet_src_channel", lookupAttr e "packet_dst_port",
      lookupAttr e "packet_dst_channel", lookupAttr e "packet_ack" with
  | some seq, some sp, some sc, some dp, some dc, some ack =>
    match parseSequence seq with
    | some n =>
      .ok ({ sequence := n
             source_port := sp
             source_channel := sc
             destination_port := dp
             destination_channel := dc }, ack)
    | none => .error .invalidPacketSequence
  | _, _, _, _, _, _ => .error .missingAttribute

/-- Errors of the Cosmos chain context (`crate::cosmos::error::Error`):
a wrapped channel-extraction error, or `mismatch_event_type` carrying the
expected and the actual type string. -/
inductive CosmosError where
  | channel (inner : ExtractError)
  | mismatchEventType (expected actual : String)
deriving DecidableEq, Repr

/-- The write-acknowledgement payload (`WriteAcknowledgement` of
ics04_channel::events). -/
structure WriteAcknowledgement where
  packet : Packet
  ack : String
deriving DecidableEq, Repr

/-- `WriteAcknowledgementEvent` (chain.rs line 31). -/
structure WriteAcknowledgementEvent where
  event : WriteAcknowledgement
deriving DecidableEq, Repr

/-- `TryFrom<AbciEvent> for WriteAcknowledgementEvent` (chain.rs lines
76-97): if the type string parses to the WriteAck event type, extract the
packet and acknowledgement (extraction errors wrapped by `Error::channel`);
otherwise fail with `mismatch_event_type("write_acknowledgement",
type_str)`. -/
def WriteAcknowledgementEvent.tryFromAbciEvent (event : AbciEvent) :
    Except CosmosError WriteAcknowledgementEvent :=
  match parseIbcEventType event.type_str with
  | .ok .writeAck =>
    match extract_packet_and_write_ack_from_tx event with
    | .ok pw => .ok { event := { packet := pw.1, ack := pw.2 } }
    | .error e => .error (.channel e)
  | _ => .error (.mismatchEventType "write_acknowledgement" event.type_str)

/-- Uniform-height groups: every element of the group has the height of the
group's first element. -/
def heightUniform (g : List IbcEventWithHeight) : Prop :=
  ∀ e0, g.head? = some e0 → ∀ e ∈ g, e.height = e0.height

/-- Concrete chain id used by witnesses. -/
def chainA : ChainId := ⟨"chain-a"⟩

/-- Concrete NewBlock event at height 5 used by witnesses. -/
def nbAt5 : IbcEventWithHeight := ⟨IbcEvent.newBlock 0, 5⟩

/-- Concrete transaction event at height 5 used by witnesses. -/
def txA5 : IbcEventWithHeight := ⟨IbcEvent.other "send_packet" 1, 5⟩

/-- Concrete transaction event at height 6 used by witnesses. -/
def txB6 : IbcEventWithHeight := ⟨IbcEvent.other "send_packet" 2, 6⟩

/-- Concrete event stream used by witnesses. -/
def evs0 : List IbcEventWithHeight := [txA5, nbAt5, txB6]

/-- The first batch `stream_batches` assembles from `evs0`. -/
def batch0 : EventBatch :=
  { chain_id := chainA, height := 5, tracking_id := 0, events := [nbAt5, txA5] }

/-- Concrete sender context used by witnesses: one event slice per
message. -/
def perMessageCtx : MessageSenderContext Nat Nat :=
  ⟨fun ms => .ok (ms.map (fun m => [m]))⟩

/-- Concrete sender context used by witnesses: always two event slices,
whatever the input. -/
def twoSliceCtx : MessageSenderContext Nat Nat :=
  ⟨fun _ => .ok [[7], [8]]⟩

/-- Concrete sender context used by witnesses: always fails. -/
def failCtx : MessageSenderContext Nat Nat :=
  ⟨fun _ => .error (.chainError 3)⟩

/-- Raw upgrade fields with an invalid ordering and a non-parsable
connection hop, used by the C5 counterexample. -/
def rawBadOrdering : RawUpgradeFields :=
  { ordering := 99, connection_hops := ["bad"], version := "" }

/-- Raw upgrade fields with a valid ordering, one non-parsable hop and one
valid hop, used by witnesses. -/
def rawBadHops : RawUpgradeFields :=
  { ordering := 1, connection_hops := ["bad", "connection-0"], version := "ics20" }

/-- Concrete Tendermint header used by witnesses. -/
def hdr0 : TendermintHeader := { height := 10, timestampNanos := 999 }

/-- A protobuf `Any` with an unregistered type URL, used by witnesses. -/
def anyUnknown : ProtoAny := { type_url := "/ibc.mock.Header", value := [] }

/-- Concrete write-acknowledgement ABCI event used by witnesses. -/
def waGood : AbciEvent :=
  { type_str := "write_acknowledgement"
    attributes := [("packet_sequence", "1"), ("packet_src_port", "transfer"),
      ("packet_src_channel", "channel-0"), ("packet_dst_port", "transfer"),
      ("packet_dst_channel", "channel-1"), ("packet_ack", "AQ==")] }

/-- The packet carried by `waGood`. -/
def waPacket : Packet :=
  { sequence := 1
    source_port := "transfer"
    source_channel := "channel-0"
    destination_port := "transfer"
    destination_channel := "channel-1" }

/-- An ABCI event whose type string is not the write-acknowledgement type,
used by witnesses. -/
def badTypeEvent : AbciEvent := { type_str := "create_client", attributes := [] }

/-! ## Helper lemmas -/

theorem isLess_eventOrder (a b : IbcEventWithHeight) :
    isLess eventOrder a b = a.event.isNewBlock := by
  rcases a with ⟨ae, ah⟩
  rcases b with ⟨be, bh⟩
  cases ae <;> cases be <;> rfl

theorem insertHead_eventOrder_append (x : IbcEventWithHeight)
    (nbs rest : List IbcEventWithHeight)
    (hnbs : ∀ e ∈ nbs, e.event.isNewBlock = true)
    (hrest : ∀ e, rest.head? = some e → e.event.isNewBlock = false) :
    insertHead eventOrder x (nbs ++ rest) = nbs ++ x :: rest := by
  induction nbs with
  | nil =>
    cases rest with
    | nil => rfl
    | cons r t =>
      have hr : r.event.isNewBlock = false := hrest r rfl
      simp [insertHead, isLess_eventOrder, hr]
  | cons n ns ih =>
    have hn : n.event.isNewBlock = true := hnbs n (by simp)
    simp only [List.cons_append, insertHead, isLess_eventOrder, hn, if_true]
    exact congrArg (List.cons n) (ih (fun e he => hnbs e (by simp [he])))

theorem filter_not_of_all (p : α → Bool) (m : List α)
    (hm : ∀ e ∈ m, p e = true) : m.filter (fun a => !p a) = [] := by
  induction m with
  | nil => rfl
  | cons a t ih =>
    have ha : p a = true := hm a (by simp)
    simp [List.filter_cons, ha]
    exact fun e he => hm e (by simp [he])

theorem filter_of_all (q : α → Bool) (m : List α)
    (hm : ∀ e ∈ m, q e = true) : m.filter q = m := by
  induction m with
  | nil => rfl
  | cons a t ih =>
    have ha : q a = true := hm a (by simp)
    simp [List.filter_cons, ha]
    exact fun e he => hm e (by simp [he])

theorem sort_events_eq (l : List IbcEventWithHeight) :
    sort_events l =
      (l.filter (fun e => e.event.isNewBlock)).reverse ++
        l.filter (fun e => !e.event.isNewBlock) := by
  induction l with
  | nil => rfl
  | cons x xs ih =>
    have hnbs : ∀ e ∈ (xs.filter (fun e => e.event.isNewBlock)).reverse,
        e.event.isNewBlock = true := by
      intro e he
      rw [List.mem_reverse] at he
      exact (List.mem_filter.mp he).2
    have hrest : ∀ e,
        (xs.filter (fun e => !e.event.isNewBlock)).head? = some e →
        e.event.isNewBlock = false := by
      intro e he
      have hmem : e ∈ xs.filter (fun e => !e.event.isNewBlock) := by
        revert he
        cases hl : xs.filter (fun e => !e.event.isNewBlock) with
        | nil =>
          intro he
          simp at he
        | cons a t =>
          intro he
          simp only [List.head?_cons, Option.some.injEq] at he
          simp [he]
      have hb := (List.mem_filter.mp hmem).2
      simpa using hb
    have hstep : sort_events (x :: xs) = insertHead eventOrder x (sort_events xs) := rfl
    rw [hstep, ih, insertHead_eventOrder_append x _ _ hnbs hrest]
    cases hx : x.event.isNewBlock with
    | true => simp [List.filter_cons, hx]
    | false => simp [List.filter_cons, hx]

theorem mem_insertHead (cmp : α → α → Ordering) (x : α) (l : List α) (e : α) :
    e ∈ insertHead cmp x l ↔ e = x ∨ e ∈ l := by
  induction l with
  | nil => simp [insertHead]
  | cons a t ih =>
    by_cases h : isLess cmp a x = true
    · simp only [insertHead, h, if_true, List.mem_cons, ih]
      tauto
    · simp only [insertHead, h, if_false, Bool.false_eq_true, List.mem_cons]

theorem length_insertHead (cmp : α → α → Ordering) (x : α) (l : List α) :
    (insertHead cmp x l).length = l.length + 1 := by
  induction l with
  | nil => rfl
  | cons a t ih =>
    by_cases h : isLess cmp a x = true
    · simp [insertHead, h, ih]
    · simp [insertHead, h]

theorem mem_rustStableSort (cmp : α → α → Ordering) (l : List α) (e : α) :
    e ∈ rustStableSort cmp l ↔ e ∈ l := by
  induction l with
  | nil => simp [rustStableSort]
  | cons x xs ih => simp [rustStableSort, mem_insertHead, ih]

theorem length_rustStableSort (cmp : α → α → Ordering) (l : List α) :
    (rustStableSort cmp l).length = l.length := by
  induction l with
  | nil => rfl
  | cons x xs ih => simp [rustStableSort, length_insertHead, ih]

theorem groupWhileStep_ne_nil (p : α → α → Bool) (x : α)
    (acc : List (List α)) (hacc : ∀ g ∈ acc, g ≠ []) :
    ∀ g ∈ groupWhileStep p x acc, g ≠ [] := by
  match acc with
  | [] =>
    intro g hg
    simp [groupWhileStep] at hg
    simp [hg]
  | [] :: gs =>
    exact absurd rfl (hacc [] (by simp))
  | (y :: g0) :: gs =>
    intro g hg
    by_cases hp : p x y = true
    · simp only [groupWhileStep, hp, if_true, List.mem_cons] at hg
      rcases hg with h | h
      · simp [h]
      · exact hacc g (by simp [h])
    · simp only [groupWhileStep, hp, if_false, Bool.false_eq_true, List.mem_cons] at hg
      rcases hg with h | h | h
      · simp [h]
      · simp [h]
      · exact hacc g (by simp [h])

theorem groupWhile_ne_nil (p : α → α → Bool) (l : List α) :
    ∀ g ∈ groupWhile p l, g ≠ [] := by
  induction l with
  | nil => simp [groupWhile]
  | cons x xs ih => exact groupWhileStep_ne_nil p x (groupWhile p xs) ih

theorem groupWhileStep_heights (x : IbcEventWithHeight)
    (acc : List (List IbcEventWithHeight))
    (hacc : ∀ g ∈ acc, heightUniform g) :
    ∀ g ∈ groupWhileStep (fun a b => a.height == b.height) x acc,
      heightUniform g := by
  match acc with
  | [] =>
    intro g hg
    simp [groupWhileStep] at hg
    intro e0 he0 e he
    rw [hg] at he0 he
    cases he0
    simp at he
    simp [he]
  | [] :: gs =>
    intro g hg
    simp only [groupWhileStep, List.mem_cons] at hg
    rcases hg with h | h | h
    · intro e0 he0 e he
      rw [h] at he0 he
      cases he0
      simp at he
      simp [he]
    · intro e0 he0
      rw [h] at he0
      cases he0
    · exact hacc g (by simp [h])
  | (y :: g0) :: gs =>
    intro g hg
    by_cases hp : (x.height == y.height) = true
    · simp only [groupWhileStep, hp, if_true, List.mem_cons] at hg
      rcases hg with h | h
      · intro e0 he0 e he
        rw [h] at he0 he
        cases he0
        have hxy : x.height = y.height := by simpa using hp
        rcases List.mem_cons.mp he with h1 | h2
        · simp [h1]
        · have := hacc (y :: g0) (by simp) y rfl e h2
          rw [this, ← hxy]
      · exact hacc g (by simp [h])
    · simp only [groupWhileStep, hp, if_false, Bool.false_eq_true,
        List.mem_cons] at hg
      rcases hg with h | h | h
      · intro e0 he0 e he
        rw [h] at he0 he
        cases he0
        simp at he
        simp [he]
      · exact hacc g (by simp [h])
      · exact hacc g (by simp [h])

theorem groupWhile_heights (l : List IbcEventWithHeight) :
    ∀ g ∈ groupWhile (fun a b => a.height == b.height) l, heightUniform g := by
  induction l with
  | nil => simp [groupWhile]
  | cons x xs ih =>
    exact groupWhileStep_heights x
      (groupWhile (fun a b => a.height == b.height) xs) ih

theorem mem_batchesOfGroups (c : ChainId)
    (gs : List (List IbcEventWithHeight)) (b : EventBatch) :
    ∀ i, b ∈ batchesOfGroups c i gs →
      ∃ g ∈ gs, ∃ j, batchOfGroup c j g = some b := by
  induction gs with
  | nil =>
    intro i h
    simp [batchesOfGroups] at h
  | cons g rest ih =>
    intro i h
    rcases hbg : batchOfGroup c i g with _ | b0
    · simp only [batchesOfGroups, hbg] at h
      obtain ⟨g1, hg1, j, hj⟩ := ih (i + 1) h
      exact ⟨g1, by simp [hg1], j, hj⟩
    · simp only [batchesOfGroups, hbg, List.mem_cons] at h
      rcases h with h | h
      · exact ⟨g, by simp, i, by rw [hbg, h]⟩
      · obtain ⟨g1, hg1, j, hj⟩ := ih (i + 1) h
        exact ⟨g1, by simp [hg1], j, hj⟩

/-! ## Claim theorems -/

/-- Claim C1: every `EventBatch` produced by the event source's batch stream for a
chain with id `c` satisfies: its `chain_id` equals `c`, its `events`
sequence is non-empty, and every element's height equals the batch's height
(the height of the first event of the group). -/
theorem c1_stream_batches_wellformed (c : ChainId)
    (evs : List IbcEventWithHeight) (b : EventBatch)
    (hb : b ∈ stream_batches c evs) :
    b.chain_id = c ∧ b.events ≠ [] ∧ ∀ e ∈ b.events, e.height = b.height := by
  obtain ⟨g, hg, j, hbg⟩ := mem_batchesOfGroups c _ b 0 hb
  have hgne : g ≠ [] := groupWhile_ne_nil _ evs g hg
  have hu : heightUniform g := groupWhile_heights evs g hg
  rcases g with _ | ⟨e0, rest⟩
  · exact absurd rfl hgne
  · simp only [batchOfGroup, Option.some.injEq] at hbg
    subst hbg
    refine ⟨rfl, ?_, ?_⟩
    · intro hnil
      simp only [sort_events] at hnil
      have hlen := length_rustStableSort eventOrder (e0 :: rest)
      rw [hnil] at hlen
      simp at hlen
    · intro e he
      have hmem : e ∈ e0 :: rest :=
        (mem_rustStableSort eventOrder (e0 :: rest) e).mp he
      exact hu e0 rfl e hmem

/-- Witness for C1: the first batch assembled from the concrete stream
`evs0` has the right chain id, a non-empty events list, and its NewBlock
event sits at the batch height. -/
theorem c1_witness :
    batch0.chain_id = chainA ∧ batch0.events ≠ [] ∧
      nbAt5.height = batch0.height := by
  have h := c1_stream_batches_wellformed chainA evs0 batch0 (by decide)
  exact ⟨h.1, h.2.1, h.2.2 nbAt5 (by decide)⟩

/-- Claim C2: after `sort_events` runs on a group's events, if a `NewBlock` event
is present the event at index 0 is a `NewBlock`, and all non-`NewBlock`
events keep their original relative order; when the group holds at most one
`NewBlock` event, the result is exactly the stable partition (NewBlock
first, the rest in RPC order). -/
theorem c2_sort_events_newblock_first (l : List IbcEventWithHeight) :
    ((∃ e ∈ l, e.event.isNewBlock = true) →
      ∃ e0, (sort_events l).head? = some e0 ∧ e0.event.isNewBlock = true) ∧
    (sort_events l).filter (fun e => !e.event.isNewBlock) =
      l.filter (fun e => !e.event.isNewBlock) ∧
    (l.countP (fun e => e.event.isNewBlock) ≤ 1 →
      sort_events l =
        l.filter (fun e => e.event.isNewBlock) ++
          l.filter (fun e => !e.event.isNewBlock)) := by
  refine ⟨?_, ?_, ?_⟩
  · rintro ⟨w, hw, hnb⟩
    have hwf : w ∈ l.filter (fun e => e.event.isNewBlock) :=
      List.mem_filter.mpr ⟨hw, hnb⟩
    rw [sort_events_eq]
    rcases hrev : (l.filter (fun e => e.event.isNewBlock)).reverse with _ | ⟨a, t⟩
    · rw [List.reverse_eq_nil_iff] at hrev
      rw [hrev] at hwf
      cases hwf
    · refine ⟨a, ?_, ?_⟩
      · rw [hrev]
        simp
      · have ha : a ∈ (l.filter (fun e => e.event.isNewBlock)).reverse := by
          rw [hrev]
          simp
        rw [List.mem_reverse] at ha
        exact (List.mem_filter.mp ha).2
  · rw [sort_events_eq, List.filter_append]
    have hall : ∀ e ∈ (l.filter (fun e => e.event.isNewBlock)).reverse,
        e.event.isNewBlock = true := by
      intro e he
      rw [List.mem_reverse] at he
      exact (List.mem_filter.mp he).2
    rw [filter_not_of_all _ _ hall]
    have hkeep : ∀ e ∈ l.filter (fun e => !e.event.isNewBlock),
        (!e.event.isNewBlock) = true := by
      intro e he
      exact (List.mem_filter.mp he).2
    rw [filter_of_all _ _ hkeep]
    simp
  · intro hcount
    rw [sort_events_eq]
    have h1 : (l.filter (fun e => e.event.isNewBlock)).length ≤ 1 := by
      rw [← List.countP_eq_length_filter]
      exact hcount
    rcases hf : l.filter (fun e => e.event.isNewBlock) with _ | ⟨a, t⟩
    · rw [hf]
      rfl
    · rw [hf] at h1 ⊢
      have ht : t = [] := by
        simp only [List.length_cons] at h1
        exact List.eq_nil_of_length_eq_zero (Nat.le_zero.mp (Nat.le_of_succ_le_succ h1))
      subst ht
      rfl

/-- Witness for C2: on the concrete group `[txA5, nbAt5]` (one NewBlock
event), `sort_events` produces the stable partition with the NewBlock
first. -/
theorem c2_witness :
    [txA5, nbAt5].countP (fun e => e.event.isNewBlock) ≤ 1 ∧
    sort_events [txA5, nbAt5] =
      [txA5, nbAt5].filter (fun e => e.event.isNewBlock) ++
        [txA5, nbAt5].filter (fun e => !e.event.isNewBlock) :=
  ⟨by decide, (c2_sort_events_newblock_first [txA5, nbAt5]).2.2 (by decide)⟩

/-- Claim C7: the reconnect retry-delay sequence starts at 1 second, is the
per-attempt-capped Fibonacci progression (element `i` is
`min (fib i) 60`, 17 attempts before the total cap cuts it off), yields no
single delay exceeding 60 seconds, and the sum of all yielded delays never
exceeds 10 minutes. -/
theorem c7_retry_strategy_bounds :
    retryStrategyDefault.head? = some 1 ∧
    retryStrategyDefault = (List.range 17).map (fun i => min (fibDelay i) 60) ∧
    retryStrategyDefault.all (fun d => decide (d ≤ 60)) = true ∧
    retryStrategyDefault.sum ≤ 600 :=
  ⟨by decide, by decide, by decide, by decide⟩

/-- Claim C8: when the run loop receives an error from the batch stream, the error
is broadcast to the event bus exactly when its kind is
`SubscriptionCancelled` (nothing is broadcast for other kinds), and in both
cases the loop reconnects and returns `Continue` rather than aborting. -/
theorem c8_run_loop_error_handling (e : ErrorDetail) :
    (handleBatchResult (Except.error e)).broadcasts =
      (if e.isSubscriptionCancelled then [Except.error e] else []) ∧
    (handleBatchResult (Except.error e)).reconnected = true ∧
    (handleBatchResult (Except.error e)).next = some Next.continue_loop := by
  by_cases h : e.isSubscriptionCancelled = true
  · simp [handleBatchResult, h]
  · simp [handleBatchResult, h]

theorem partitionMapHops_snd (hops : List String) :
    (partitionMapHops hops).2 = failuresOf hops := by
  induction hops with
  | nil => rfl
  | cons id rest ih =>
    rcases hc : ConnectionId.fromStr id with err | cid
    · simp [partitionMapHops, failuresOf, List.filterMap_cons, hc]
      simpa [failuresOf] using ih
    · simp [partitionMapHops, failuresOf, List.filterMap_cons, hc]
      simpa [failuresOf] using ih

/-- Claim C3: for every message list, `send_messages_fixed` propagates an error
of the underlying `send_messages` unchanged; on success it returns the
slices unchanged exactly when their number equals the number of input
messages, and otherwise fails with
`MismatchIbcEventsCount(expected := COUNT, actual := n)`. -/
theorem c3_send_messages_fixed_mismatch (ctx : MessageSenderContext M E)
    (messages : List M) :
    (∀ err, ctx.send_messages messages = .error err →
      send_messages_fixed ctx messages = .error err) ∧
    (∀ events, ctx.send_messages messages = .ok events →
      (events.length = messages.length →
        send_messages_fixed ctx messages = .ok events) ∧
      (events.length ≠ messages.length →
        send_messages_fixed ctx messages =
          .error (.mismatchIbcEventsCount messages.length events.length))) := by
  constructor
  · intro err herr
    simp [send_messages_fixed, herr]
  · intro events hok
    constructor
    · intro hlen
      simp [send_messages_fixed, hok, hlen]
    · intro hlen
      simp [send_messages_fixed, hok, hlen]

/-- Witness for C3: a context returning two slices for three messages
yields the mismatch error `(expected := 3, actual := 2)`; a context
returning one slice per message returns the slices unchanged; a failing
context propagates its error. -/
theorem c3_witness :
    send_messages_fixed twoSliceCtx [1, 2, 3] =
      .error (.mismatchIbcEventsCount 3 2) ∧
    send_messages_fixed perMessageCtx [4, 5] = .ok [[4], [5]] ∧
    send_messages_fixed failCtx [1] = .error (.chainError 3) := by
  have h1 := ((c3_send_messages_fixed_mismatch twoSliceCtx [1, 2, 3]).2
    [[7], [8]] rfl).2 (by decide)
  have h2 := ((c3_send_messages_fixed_mismatch perMessageCtx [4, 5]).2
    [[4], [5]] rfl).1 (by decide)
  have h3 := (c3_send_messages_fixed_mismatch failCtx [1]).1
    (.chainError 3) rfl
  exact ⟨h1, h2, h3⟩

/-- Claim C9: `send_message m` returns the flattening of all inner event slices
returned by `send_messages [m]`, whatever their number (no
`MismatchIbcEventsCount` is ever raised), and propagates errors. -/
theorem c9_send_message_flattens (ctx : MessageSenderContext M E)
    (message : M) :
    (∀ events, ctx.send_messages [message] = .ok events →
      send_message ctx message = .ok events.flatten) ∧
    (∀ err, ctx.send_messages [message] = .error err →
      send_message ctx message = .error err) := by
  constructor
  · intro events hok
    simp [send_message, hok]
  · intro err herr
    simp [send_message, herr]

/-- Witness for C9: the two-slice context returns two slices for the single
message 1, and `send_message` merges them into one sequence instead of
raising a mismatch error. -/
theorem c9_witness : send_message twoSliceCtx 1 = .ok [7, 8] := by
  have h := (c9_send_message_flattens twoSliceCtx 1).1 [[7], [8]] rfl
  simpa using h

/-- Claim C4: decoding the raw protobuf form produced by encoding any valid
`UpgradeFields` value yields the value again. -/
theorem c4_upgrade_fields_roundtrip (u : UpgradeFields) :
    UpgradeFields.tryFromRaw (UpgradeFields.toRaw u) = .ok u := by
  obtain ⟨o, hops, v⟩ := u
  obtain ⟨vs⟩ := v
  have hord : ChannelOrdering.fromI32 (ChannelOrdering.toI32 o) = .ok o := by
    cases o <;> rfl
  have hhops : partitionMapHops (hops.map ConnectionId.toStr) = (hops, []) := by
    induction hops with
    | nil => rfl
    | cons c cs ih =>
      obtain ⟨s, hs⟩ := c
      have hc : ConnectionId.fromStr s = .ok ⟨s, hs⟩ := by
        simp [ConnectionId.fromStr, hs]
      simp [partitionMapHops, ConnectionId.toStr, hc, ih]
  simp [UpgradeFields.toRaw, UpgradeFields.tryFromRaw, hord, hhops,
    Version.fromString, Version.toStr]

/-- Counterexample for C5: `rawBadOrdering` has the non-parsable connection hop
`"bad"`, yet decoding fails with the ordering error `unknownOrderType 99`,
which does not report the bad entry — so the claim, which requires the
returned error to carry every failing entry for every such raw value, is
false as stated. -/
theorem c5_counterexample :
    ConnectionId.fromStr "bad" =
      .error (.invalidIdentifier "bad") ∧
    UpgradeFields.tryFromRaw rawBadOrdering =
      .error (.unknownOrderType 99) ∧
    reportsBadEntry (UpgradeFields.tryFromRaw rawBadOrdering) "bad" = false := by
  refine ⟨?_, ?_, ?_⟩ <;> decide

/-- Claim C5, amended: for every raw `UpgradeFields` whose ordering field is
valid and in which at least one `connection_hops` entry fails to parse,
decoding fails with `parse_connection_hops_vector` carrying exactly the
failing entries, in order — in particular every failing entry is
reported. -/
theorem c5_amended_reports_all_failures (raw : RawUpgradeFields)
    (o : ChannelOrdering)
    (hord : ChannelOrdering.fromI32 raw.ordering = .ok o)
    (hbad : failuresOf raw.connection_hops ≠ []) :
    UpgradeFields.tryFromRaw raw =
      .error (.parseConnectionHopsVector (failuresOf raw.connection_hops)) ∧
    ∀ entry err, entry ∈ raw.connection_hops →
      ConnectionId.fromStr entry = .error err →
      (entry, err) ∈ failuresOf raw.connection_hops := by
  have hsnd := partitionMapHops_snd raw.connection_hops
  constructor
  · have hne : (partitionMapHops raw.connection_hops).2.isEmpty = false := by
      rw [hsnd]
      rcases hf : failuresOf raw.connection_hops with _ | ⟨a, t⟩
      · exact absurd hf hbad
      · rfl
    simp [UpgradeFields.tryFromRaw, hord, hne, hsnd]
    exact hbad
  · intro entry err hmem herr
    unfold failuresOf
    exact List.mem_filterMap.mpr ⟨entry, hmem, by simp [herr]⟩

/-- Witness for C5 (amended): `rawBadHops` has a valid ordering, the
non-parsable hop `"bad"` and the valid hop `"connection-0"`; decoding fails
with the aggregated error reporting exactly the bad entry. -/
theorem c5_witness :
    UpgradeFields.tryFromRaw rawBadHops =
      .error (.parseConnectionHopsVector
        [("bad", IdentifierError.invalidIdentifier "bad")]) ∧
    ("bad", IdentifierError.invalidIdentifier "bad") ∈
      failuresOf rawBadHops.connection_hops := by
  have h := c5_amended_reports_all_failures rawBadHops ChannelOrdering.unordered
    (by decide) (by decide)
  have hf : failuresOf rawBadHops.connection_hops =
      [("bad", IdentifierError.invalidIdentifier "bad")] := by decide
  constructor
  · rw [← hf]
    exact h.1
  · exact h.2 "bad" (IdentifierError.invalidIdentifier "bad") (by decide) (by decide)

/-- Claim C6: converting any `AnyHeader` to a protobuf `Any` and decoding it back
yields the header again; and decoding any `Any` whose type URL is not a
registered header type URL (in the non-mocks build, not
`TENDERMINT_HEADER_TYPE_URL`) fails with `unknown_header_type` carrying
that URL. -/
theorem c6_any_header_roundtrip :
    (∀ h : AnyHeader,
      AnyHeader.tryFromProtoAny (AnyHeader.toProtoAny h) = .ok h) ∧
    (∀ raw : ProtoAny, raw.type_url ≠ TENDERMINT_HEADER_TYPE_URL →
      AnyHeader.tryFromProtoAny raw = .error (.unknownHeaderType raw.type_url)) := by
  constructor
  · intro h
    rcases h with ⟨ht⟩
    rcases ht with ⟨hh, tt⟩
    simp [AnyHeader.tryFromProtoAny, AnyHeader.toProtoAny,
      TendermintHeader.encode_vec, decode_header]
  · intro raw hne
    simp [AnyHeader.tryFromProtoAny, hne]

/-- Witness for C6: the concrete header `hdr0` round-trips, and the
unregistered type URL `"/ibc.mock.Header"` fails with `unknown_header_type`
carrying it. -/
theorem c6_witness :
    AnyHeader.tryFromProtoAny (AnyHeader.toProtoAny (.tendermint hdr0)) =
      .ok (.tendermint hdr0) ∧
    AnyHeader.tryFromProtoAny anyUnknown =
      .error (.unknownHeaderType "/ibc.mock.Header") := by
  have h := c6_any_header_roundtrip
  exact ⟨h.1 (.tendermint hdr0), h.2 anyUnknown (by decide)⟩

/-- Claim C10: the conversion of an ABCI event to a `WriteAcknowledgementEvent`
succeeds only when the event's type string parses to the WriteAck event
type and packet/ack extraction succeeds; for every event whose type string
is not the write-acknowledgement type, it returns the
`mismatch_event_type("write_acknowledgement", type_str)` error (the
conversion is a total function: it never panics). -/
theorem c10_write_ack_conversion :
    (∀ (e : AbciEvent) (w : WriteAcknowledgementEvent),
      WriteAcknowledgementEvent.tryFromAbciEvent e = .ok w →
      parseIbcEventType e.type_str = .ok .writeAck ∧
      extract_packet_and_write_ack_from_tx e =
        .ok (w.event.packet, w.event.ack)) ∧
    (∀ e : AbciEvent, parseIbcEventType e.type_str ≠ .ok .writeAck →
      WriteAcknowledgementEvent.tryFromAbciEvent e =
        .error (.mismatchEventType "write_acknowledgement" e.type_str)) := by
  constructor
  · intro e w hok
    unfold WriteAcknowledgementEvent.tryFromAbciEvent at hok
    rcases hp : parseIbcEventType e.type_str with err | pt
    · rw [hp] at hok
      cases hok
    · rw [hp] at hok
      cases pt with
      | writeAck =>
        rcases hex : extract_packet_and_write_ack_from_tx e with exErr | pw
        · rw [hex] at hok
          cases hok
        · rw [hex] at hok
          injection hok with hw
          subst hw
          exact ⟨rfl, by simp [hex]⟩
      | sendPacket => cases hok
      | ackPacket => cases hok
      | timeoutPacket => cases hok
  · intro e hne
    unfold WriteAcknowledgementEvent.tryFromAbciEvent
    rcases hp : parseIbcEventType e.type_str with err | pt
    · rfl
    · cases pt with
      | writeAck => exact absurd hp hne
      | sendPacket => rfl
      | ackPacket => rfl
      | timeoutPacket => rfl

/-- Witness for C10: the concrete write-acknowledgement event `waGood`
converts successfully (so its type parses and extraction succeeds), and the
event with type string `"create_client"` fails with the mismatch error. -/
theorem c10_witness :
    (parseIbcEventType waGood.type_str = .ok .writeAck ∧
      extract_packet_and_write_ack_from_tx waGood = .ok (waPacket, "AQ==")) ∧
    WriteAcknowledgementEvent.tryFromAbciEvent badTypeEvent =
      .error (.mismatchEventType "write_acknowledgement" "create_client") := by
  have h := c10_write_ack_conversion
  constructor
  · have hg := h.1 waGood { event := { packet := waPacket, ack := "AQ==" } }
      (by decide)
    simpa using hg
  · have hb := h.2 badTypeEvent (by decide)
    simpa using hb
